import Mathlib
/-!
Verification development for the houston-crm repository.

The repository is a tRPC/Prisma CRM.  The definitions below are shallow
embeddings of the router and worker code:

* deal statistics           — src/deal-router-complete.ts, dealRouter.stats
* pipeline/stage engine     — src/contact-router-complete.ts, pipelineRouter
* deal lifecycle            — src/deal-router-complete.ts, dealRouter
* outbound message senders  — src/unnamed/part_001 (EmailSender) and
                              src/sms-router-complete.ts (SmsSender)
* webhook handlers          — src/unnamed/part_001 (handleSendGridWebhook)
                              and src/unnamed/part_000 (emailRouter.trackOpen)
* cursor pagination         — the shared list-query pattern of
                              dealRouter.list / contactRouter.list /
                              emailRouter.list

Database rows are Lean structures, the Prisma store is a Lean list, JS
numbers carrying ids/orders are ℕ/ℤ, monetary values and rates are ℚ, and
thrown TRPCErrors are an Except error type.  The JS value NaN (produced by
the expression 0 / 0 in dealRouter.stats) is modelled as the value none of
an Option type, since no further arithmetic on it is observed.
-/
namespace HoustonCRM
/-- TRPC error codes thrown by the modelled routers. -/
inductive ErrCode
  | NOT_FOUND
  | BAD_REQUEST
  | PRECONDITION_FAILED
deriving DecidableEq, Repr
/-- Deal status enum (src/deal-router-complete.ts, z.enum). -/
inductive DealStatus
  | OPEN
  | WON
  | LOST
deriving DecidableEq, Repr
/-- JS Math.round(q * 10) / 10, as used for one-decimal rounding of rates.
JS Math.round rounds half toward positive infinity, which is exactly
Mathlib round on ℚ. -/
def round1 (q : ℚ) : ℚ := ((round (q * 10) : ℤ) : ℚ) / 10
/-- A deal row as seen by dealRouter.stats: only status and value matter. -/
structure DealRow where
  status : DealStatus
  value : ℚ
deriving DecidableEq, Repr
/-- Result shape of dealRouter.stats. winRate is an Option: some q is an
ordinary number, none is the JS NaN that 0 / 0 produces. -/
structure DealStatsResult where
  totalDeals : ℕ
  wonDeals : ℕ
  lostDeals : ℕ
  openDeals : ℕ
  totalValue : ℚ
  wonValue : ℚ
  winRate : Option ℚ
deriving DecidableEq, Repr
/-- dealRouter.stats (src/deal-router-complete.ts lines 300-326) on the
list of deals matching the filter.  The source computes
winRate = totalDeals > 0 ? (wonDeals / (wonDeals + lostDeals)) * 100 : 0
and then Math.round(winRate * 10) / 10; when totalDeals > 0 but
wonDeals + lostDeals = 0 the division is 0 / 0 = NaN, modelled as none. -/
def dealStats (deals : List DealRow) : DealStatsResult :=
  let totalDeals := deals.length
  let wonDeals := (deals.filter (fun d => d.status = DealStatus.WON)).length
  let lostDeals := (deals.filter (fun d => d.status = DealStatus.LOST)).length
  let openDeals := (deals.filter (fun d => d.status = DealStatus.OPEN)).length
  let totalValue := (deals.map (fun d => d.value)).sum
  let wonValue := ((deals.filter (fun d => d.status = DealStatus.WON)).map
      (fun d => d.value)).sum
  let winRate : Option ℚ :=
    if 0 < totalDeals then
      if wonDeals + lostDeals = 0 then none
      else some (((wonDeals : ℚ) / ((wonDeals : ℚ) + (lostDeals : ℚ))) * 100)
    else some 0
  { totalDeals := totalDeals
    wonDeals := wonDeals
    lostDeals := lostDeals
    openDeals := openDeals
    totalValue := totalValue
    wonValue := wonValue
    winRate := winRate.map round1 }
/-! ## Pipeline stages and the deal lifecycle -/
/-- A pipelineStage row: unique id, owning pipeline and kanban order.
Name and color are omitted (no claim mentions them). -/
structure PStage where
  id : ℕ
  pipelineId : ℕ
  order : ℤ
deriving DecidableEq, Repr
/-- A deal row.  probability and expectedCloseDate are omitted (no claim
depends on them); all other updatable fields are kept. -/
structure Deal where
  title : String
  value : ℚ
  pipelineId : ℕ
  stageId : ℕ
  status : DealStatus
  actualCloseDate : Option ℤ
deriving DecidableEq, Repr
/-- prisma.pipelineStage.findFirst with where id = sid and
pipelineId = pid, as used by dealRouter.create and dealRouter.moveStage. -/
def stageFor (stages : List PStage) (sid pid : ℕ) : Option PStage :=
  stages.find? (fun s => s.id = sid ∧ s.pipelineId = pid)
/-- dealRouter.create (src/deal-router-complete.ts lines 114-171).
contactOk and pipelineOk stand for the contact/pipeline findFirst results
(external entities); the stage lookup requires the stage's row to name
the requested pipeline.  The created deal has status OPEN and no
actualCloseDate. -/
def dealCreate (stages : List PStage) (contactOk pipelineOk : Bool)
    (pid sid : ℕ) (title : String) (value : ℚ) : Except ErrCode Deal :=
  if ¬contactOk then Except.error ErrCode.NOT_FOUND
  else if ¬pipelineOk then Except.error ErrCode.NOT_FOUND
  else
    match stageFor stages sid pid with
    | none => Except.error ErrCode.NOT_FOUND
    | some _ =>
        Except.ok
          { title := title, value := value, pipelineId := pid,
            stageId := sid, status := DealStatus.OPEN,
            actualCloseDate := none }
/-- The partial update input of dealRouter.update (none = field absent). -/
structure DealUpdateInput where
  title : Option String
  value : Option ℚ
  status : Option DealStatus
deriving DecidableEq, Repr
/-- dealRouter.update (src/deal-router-complete.ts lines 174-220): spreads
the provided fields over the row and, when the input status is WON or
LOST, additionally stamps actualCloseDate = new Date() (the now
argument).  No check of the deal's current status is made, and passing
status OPEN does not touch actualCloseDate. -/
def dealUpdate (now : ℤ) (deal : Deal) (inp : DealUpdateInput) : Deal :=
  { deal with
    title := inp.title.getD deal.title
    value := inp.value.getD deal.value
    status := inp.status.getD deal.status
    actualCloseDate :=
      if inp.status = some DealStatus.WON ∨ inp.status = some DealStatus.LOST
      then some now else deal.actualCloseDate }
/-- dealRouter.moveStage (src/deal-router-complete.ts lines 223-268): the
new stage must be a stage of the deal's own pipeline, else BAD_REQUEST
(message: invalid stage for this pipeline) and the deal is untouched;
on success only stageId changes. -/
def dealMoveStage (stages : List PStage) (deal : Deal) (newSid : ℕ) :
    Except ErrCode Deal :=
  match stageFor stages newSid deal.pipelineId with
  | none => Except.error ErrCode.BAD_REQUEST
  | some _ => Except.ok { deal with stageId := newSid }
/-- The deal's stage reference resolves to a stage row of the deal's own
pipeline. -/
def StageConsistent (stages : List PStage) (d : Deal) : Prop :=
  ∃ s ∈ stages, s.id = d.stageId ∧ s.pipelineId = d.pipelineId
/-- A concrete WON deal, as produced by closing a freshly created deal. -/
def wonDealExample : Deal :=
  { title := "d", value := 5, pipelineId := 1, stageId := 10,
    status := DealStatus.WON, actualCloseDate := some 7 }
/-! ## Outbound message dispatch (EmailSender / SmsSender) -/
/-- Email/SMS status enum (SMS uses the subset without
DELIVERED-engagement states beyond DELIVERED). -/
inductive MsgStatus
  | QUEUED
  | SENDING
  | SENT
  | DELIVERED
  | OPENED
  | CLICKED
  | BOUNCED
  | FAILED
deriving DecidableEq, Repr
/-- An email row as the worker sees it.  Tracking ids are opaque tokens,
modelled as ℕ. -/
structure EmailMsg where
  id : ℕ
  createdAt : ℤ
  status : MsgStatus
  sentAt : Option ℤ
  openedAt : Option ℤ
  clickedAt : Option ℤ
  trackingId : Option ℕ
deriving DecidableEq, Repr
/-- Email account provider branch relevant to EmailSender.send. OTHER
covers the unsupported-provider throw. -/
inductive EmailProvider
  | SENDGRID
  | SMTP
  | OTHER
deriving DecidableEq, Repr
structure EmailAccount where
  provider : EmailProvider
  hasApiKey : Bool
deriving DecidableEq, Repr
/-- Observable outcome of one synchronous send: the final row, the
sequence of status writes performed, whether the provider was actually
called, and whether the call re-raised an error to its caller. -/
structure SendOutcome (α : Type) where
  msg : α
  statusWrites : List MsgStatus
  providerCalled : Bool
  threw : Bool
deriving DecidableEq, Repr
/-- EmailSender.send (src/unnamed/part_001 lines 772-868).  The row is
the findUnique result (assumed present).  If status is not QUEUED the
call logs and returns: no write, no provider call.  Otherwise status is
written to SENDING, then: SMTP sends via nodemailer; SENDGRID without an
api key throws; SENDGRID with a key calls the provider; any other
provider throws.  Provider success writes SENT and sentAt = now;
any thrown error is caught, FAILED is written, and the error is
re-thrown.  providerOk tells whether the provider call would succeed. -/
def emailSenderSend (account : EmailAccount) (providerOk : Bool) (now : ℤ)
    (email : EmailMsg) : SendOutcome EmailMsg :=
  if email.status ≠ MsgStatus.QUEUED then
    ⟨email, [], false, false⟩
  else
    match account.provider with
    | EmailProvider.SMTP =>
        if providerOk then
          ⟨{ email with status := MsgStatus.SENT, sentAt := some now },
            [MsgStatus.SENDING, MsgStatus.SENT], true, false⟩
        else
          ⟨{ email with status := MsgStatus.FAILED },
            [MsgStatus.SENDING, MsgStatus.FAILED], true, true⟩
    | EmailProvider.SENDGRID =>
        if ¬account.hasApiKey then
          ⟨{ email with status := MsgStatus.FAILED },
            [MsgStatus.SENDING, MsgStatus.FAILED], false, true⟩
        else if providerOk then
          ⟨{ email with status := MsgStatus.SENT, sentAt := some now },
            [MsgStatus.SENDING, MsgStatus.SENT], true, false⟩
        else
          ⟨{ email with status := MsgStatus.FAILED },
            [MsgStatus.SENDING, MsgStatus.FAILED], true, true⟩
    | EmailProvider.OTHER =>
        ⟨{ email with status := MsgStatus.FAILED },
          [MsgStatus.SENDING, MsgStatus.FAILED], false, true⟩
/-- An smsMessage row as the worker sees it. -/
structure SmsMsg where
  id : ℕ
  createdAt : ℤ
  status : MsgStatus
  sentAt : Option ℤ
  providerMessageId : Option ℕ
deriving DecidableEq, Repr
/-- SmsSender.send (src/sms-router-complete.ts lines 184-226).  Same
shape as the email sender: QUEUED guard, SENDING write, Twilio call
(non-Twilio providers throw), SENT + sentAt + providerMessageId on
success, FAILED + rethrow on any thrown error. -/
def smsSenderSend (providerIsTwilio providerOk : Bool) (now : ℤ)
    (messageSid : ℕ) (sms : SmsMsg) : SendOutcome SmsMsg :=
  if sms.status ≠ MsgStatus.QUEUED then
    ⟨sms, [], false, false⟩
  else if ¬providerIsTwilio then
    ⟨{ sms with status := MsgStatus.FAILED },
      [MsgStatus.SENDING, MsgStatus.FAILED], false, true⟩
  else if providerOk then
    ⟨{ sms with
        status := MsgStatus.SENT
        sentAt := some now
        providerMessageId := some messageSid },
      [MsgStatus.SENDING, MsgStatus.SENT], true, false⟩
  else
    ⟨{ sms with status := MsgStatus.FAILED },
      [MsgStatus.SENDING, MsgStatus.FAILED], true, true⟩
/-! ## Store updates and webhook handlers -/
/-- prisma.X.update where id = i: replace every row whose id is i by the
new row (with unique ids, exactly that row). -/
def updateById {α : Type} (idOf : α → ℕ) (store : List α) (i : ℕ)
    (new : α) : List α :=
  store.map (fun x => if idOf x = i then new else x)
/-- The webhook event kinds of the SendGrid switch.  openEv and clickEv
are the open and click engagement events; otherEv is any unrecognised
event kind (the switch has no default case). -/
inductive SGEvent
  | delivered
  | openEv
  | clickEv
  | bounce
  | dropped
  | otherEv
deriving DecidableEq, Repr
/-- Search predicate: the row carries this tracking id. -/
def byTracking (t : ℕ) : EmailMsg → Bool := fun e => e.trackingId = some t
/-- One iteration of handleSendGridWebhook (src/unnamed/part_001 lines
945-998): skip events without a tracking id or without a matching email;
delivered and bounce/dropped overwrite status unconditionally; open and
click write status and the timestamp only when the timestamp is still
null, otherwise nothing is written. -/
def handleOneSendGridEvent (now : ℤ) (store : List EmailMsg)
    (ev : SGEvent) (tid : Option ℕ) : List EmailMsg :=
  match tid with
  | none => store
  | some t =>
      match store.find? (byTracking t) with
      | none => store
      | some email =>
          match ev with
          | SGEvent.delivered =>
              updateById EmailMsg.id store email.id
                { email with status := MsgStatus.DELIVERED }
          | SGEvent.openEv =>
              if email.openedAt = none then
                updateById EmailMsg.id store email.id
                  { email with
                    status := MsgStatus.OPENED
                    openedAt := some now }
              else store
          | SGEvent.clickEv =>
              if email.clickedAt = none then
                updateById EmailMsg.id store email.id
                  { email with
                    status := MsgStatus.CLICKED
                    clickedAt := some now }
              else store
          | SGEvent.bounce =>
              updateById EmailMsg.id store email.id
                { email with status := MsgStatus.BOUNCED }
          | SGEvent.dropped =>
              updateById EmailMsg.id store email.id
                { email with status := MsgStatus.BOUNCED }
          | SGEvent.otherEv => store
/-- handleSendGridWebhook folds the event batch over the store. -/
def handleSendGridWebhook (now : ℤ) (store : List EmailMsg)
    (events : List (SGEvent × Option ℕ)) : List EmailMsg :=
  events.foldl (fun st ev => handleOneSendGridEvent now st ev.1 ev.2) store
/-- emailRouter.trackOpen (src/unnamed/part_000 lines 181-199): look the
email up by tracking id; if found and openedAt is still null, write
status OPENED and openedAt = now; otherwise do nothing. -/
def trackOpen (now : ℤ) (store : List EmailMsg) (tid : ℕ) :
    List EmailMsg :=
  match store.find? (byTracking tid) with
  | none => store
  | some email =>
      if email.openedAt = none then
        updateById EmailMsg.id store email.id
          { email with
            status := MsgStatus.OPENED
            openedAt := some now }
      else store
/-! ## Batch polling (processQueue) -/
/-- One iteration of the processQueue loop: re-read the row by id (the
sender's own findUnique) and, when found, write back the sender's
result row.  send is the row transformation the synchronous send
performs. -/
def procStep {α : Type} (idOf : α → ℕ) (send : α → α)
    (st : List α) (m : α) : List α :=
  match st.find? (fun x => idOf x = idOf m) with
  | none => st
  | some cur => updateById idOf st (idOf m) (send cur)
/-- The batch EmailSender.processQueue selects: the 10 oldest QUEUED
rows.  The database orderBy createdAt asc is modelled by insertion sort
(only the fact that sorting permutes the rows is used below). -/
def emailBatch (store : List EmailMsg) : List EmailMsg :=
  (List.insertionSort (fun a b => a.createdAt ≤ b.createdAt)
    (store.filter (fun m => m.status = MsgStatus.QUEUED))).take 10
/-- The row transformation of one synchronous EmailSender.send, with the
row's account and the provider outcome looked up by row id. -/
def emailSendStep (accountOf : ℕ → EmailAccount) (providerOk : ℕ → Bool)
    (now : ℤ) : EmailMsg → EmailMsg :=
  fun cur => (emailSenderSend (accountOf cur.id) (providerOk cur.id) now cur).msg
/-- EmailSender.processQueue (src/unnamed/part_001 lines 927-942): fold
the batch through send, each iteration wrapped in its own try/catch so a
throw from one item does not stop the loop. -/
def emailProcessQueue (accountOf : ℕ → EmailAccount)
    (providerOk : ℕ → Bool) (now : ℤ) (store : List EmailMsg) :
    List EmailMsg :=
  (emailBatch store).foldl
    (procStep EmailMsg.id (emailSendStep accountOf providerOk now)) store
/-- SmsSender.processQueue batch: the 10 oldest QUEUED sms rows. -/
def smsBatch (store : List SmsMsg) : List SmsMsg :=
  (List.insertionSort (fun a b => a.createdAt ≤ b.createdAt)
    (store.filter (fun m => m.status = MsgStatus.QUEUED))).take 10
/-- The row transformation of one synchronous SmsSender.send. -/
def smsSendStep (twilioOf pOk : ℕ → Bool) (msidOf : ℕ → ℕ) (now : ℤ) :
    SmsMsg → SmsMsg :=
  fun cur => (smsSenderSend (twilioOf cur.id) (pOk cur.id) now
    (msidOf cur.id) cur).msg
/-- SmsSender.processQueue (src/sms-router-complete.ts lines 247-261). -/
def smsProcessQueue (twilioOf pOk : ℕ → Bool) (msidOf : ℕ → ℕ) (now : ℤ)
    (store : List SmsMsg) : List SmsMsg :=
  (smsBatch store).foldl
    (procStep SmsMsg.id (smsSendStep twilioOf pOk msidOf now)) store
/-! ## Cursor pagination (shared list-query pattern) -/
/-- The rows the database returns from a cursor position: Prisma cursors
are inclusive, so with cursor c the result starts at the first row whose
id is c; without a cursor, all rows.  rows is the filter-matching result
set in query order (createdAt desc), row type abstracted to α with an id
projection. -/
def fromCursor {α : Type} (idOf : α → ℕ) (rows : List α) :
    Option ℕ → List α
  | none => rows
  | some c => rows.dropWhile (fun r => ¬ idOf r = c)
/-- The shared list-query pagination (dealRouter.list lines 27-46,
contactRouter.list lines 57-76, emailRouter.list lines 138-159): take
limit + 1 rows from the cursor; if all limit + 1 arrived, pop the last
row off the page and return its id as nextCursor. -/
def listPage {α : Type} (idOf : α → ℕ) (rows : List α)
    (cursor : Option ℕ) (limit : ℕ) : List α × Option ℕ :=
  if limit < ((fromCursor idOf rows cursor).take (limit + 1)).length then
    (((fromCursor idOf rows cursor).take (limit + 1)).dropLast,
      (((fromCursor idOf rows cursor).take (limit + 1)).getLast?).map idOf)
  else ((fromCursor idOf rows cursor).take (limit + 1), none)
/-! ## Pipeline/stage engine: order maintenance -/
/-- Number of stages of one pipeline whose order is m. -/
def occ (stages : List PStage) (pid : ℕ) (m : ℤ) : ℕ :=
  stages.countP (fun s => s.pipelineId = pid ∧ s.order = m)
/-- Number of stages of one pipeline (pipeline.stages.length). -/
def stageCount (stages : List PStage) (pid : ℕ) : ℕ :=
  stages.countP (fun s => s.pipelineId = pid)
/-- The spec's density invariant for one pipeline: each order value
0 .. N-1 occurs exactly once, nothing else occurs. -/
def DensePipeline (stages : List PStage) (pid : ℕ) : Prop :=
  ∀ m : ℤ, occ stages pid m =
    if 0 ≤ m ∧ m < (stageCount stages pid : ℤ) then 1 else 0
/-- The stage rows created by pipelineRouter.create
(src/contact-router-complete.ts lines 419-459): the k requested stages
receive order = array index, ids are fresh consecutive ids. -/
def createPipelineStages (pid k firstId : ℕ) : List PStage :=
  (List.range k).map (fun i => ⟨firstId + i, pid, (i : ℤ)⟩)
/-- pipelineRouter.create appends a new pipeline's stages to the store. -/
def pipelineCreate (stages : List PStage) (pid k firstId : ℕ) :
    List PStage :=
  stages ++ createPipelineStages pid k firstId
/-- Core of pipelineRouter.addStage
(src/contact-router-complete.ts lines 514-554) once the insert order is
fixed: when ord is below the pipeline's stage count, every stage of the
pipeline with order ≥ ord is incremented (the updateMany), then the new
stage row is inserted with the given order. -/
def addStageAt (stages : List PStage) (pid newId : ℕ) (ord : ℤ) :
    List PStage :=
  (if ord < (stageCount stages pid : ℤ) then
      stages.map (fun s =>
        if s.pipelineId = pid ∧ ord ≤ s.order then
          { s with order := s.order + 1 }
        else s)
    else stages) ++ [⟨newId, pid, ord⟩]
/-- pipelineRouter.addStage: the insert position defaults to the current
stage count (append); input.position is not range-checked. -/
def addStage (stages : List PStage) (pid newId : ℕ)
    (position : Option ℤ) : List PStage :=
  addStageAt stages pid newId
    (position.getD (stageCount stages pid : ℤ))
/-- pipelineRouter.deleteStage
(src/contact-router-complete.ts lines 615-645): look the stage up by id
(NOT_FOUND if absent); refuse with BAD_REQUEST when any deal references
it; otherwise delete the row and decrement the order of every stage of
the same pipeline whose order exceeds the deleted stage's order (the raw
UPDATE).  dealCount gives each stage's _count.deals. -/
def deleteStage (dealCount : ℕ → ℕ) (stages : List PStage) (sid : ℕ) :
    Except ErrCode (List PStage) :=
  match stages.find? (fun s => s.id = sid) with
  | none => Except.error ErrCode.NOT_FOUND
  | some st =>
      if 0 < dealCount st.id then Except.error ErrCode.BAD_REQUEST
      else Except.ok
        ((stages.eraseP (fun s => s.id = sid)).map
          (fun s =>
            if s.pipelineId = st.pipelineId ∧ st.order < s.order then
              { s with order := s.order - 1 }
            else s))
/-- The engine's own pipeline/stage operations, as invoked through the
router. -/
inductive PipeOp
  | createP (pid k firstId : ℕ)
  | addS (pid newId : ℕ) (position : Option ℤ)
  | delS (sid : ℕ)
deriving DecidableEq, Repr
/-- Run one operation; a failing deleteStage throws before any write, so
it leaves the store unchanged. -/
def applyOp (dc : ℕ → ℕ) (stages : List PStage) : PipeOp → List PStage
  | PipeOp.createP pid k f => pipelineCreate stages pid k f
  | PipeOp.addS pid i p => addStage stages pid i p
  | PipeOp.delS sid =>
      match deleteStage dc stages sid with
      | Except.ok l => l
      | Except.error _ => stages
/-- Run a sequence of operations. -/
def runOps (dc : ℕ → ℕ) (stages : List PStage) (ops : List PipeOp) :
    List PStage :=
  ops.foldl (applyOp dc) stages
/-- Router-level validity of one operation in a given state: a created
pipeline is a fresh pipeline (its id owns no stages yet), and an
explicit addStage position lies within 0 .. current stage count.  The
source checks neither bound on position. -/
def opOk (stages : List PStage) : PipeOp → Prop
  | PipeOp.createP pid _ _ => stageCount stages pid = 0
  | PipeOp.addS pid _ (some p) => 0 ≤ p ∧ p ≤ (stageCount stages pid : ℤ)
  | PipeOp.addS _ _ none => True
  | PipeOp.delS _ => True
instance instDecOpOk (stages : List PStage) :
    (op : PipeOp) → Decidable (opOk stages op)
  | PipeOp.createP pid _ _ =>
      inferInstanceAs (Decidable (stageCount stages pid = 0))
  | PipeOp.addS pid _ (some p) =>
      inferInstanceAs
        (Decidable (0 ≤ p ∧ p ≤ (stageCount stages pid : ℤ)))
  | PipeOp.addS _ _ none => inferInstanceAs (Decidable True)
  | PipeOp.delS _ => inferInstanceAs (Decidable True)
/-- Validity of a whole operation sequence, checked in the state each
operation actually runs in. -/
def ValidOps (dc : ℕ → ℕ) (stages : List PStage) : List PipeOp → Prop
  | [] => True
  | op :: rest => opOk stages op ∧ ValidOps dc (applyOp dc stages op) rest
instance instDecValidOps (dc : ℕ → ℕ) :
    (stages : List PStage) → (ops : List PipeOp) →
      Decidable (ValidOps dc stages ops)
  | _, [] => Decidable.isTrue trivial
  | stages, op :: rest =>
      @instDecidableAnd _ _ (instDecOpOk stages op)
        (instDecValidOps dc (applyOp dc stages op) rest)

/-! ## Theorems -/

/-- C1.  The claim says stats returns winRate = 0 whenever won + lost = 0.
The code guards the division with totalDeals > 0 instead of
won + lost > 0, so a store holding a single OPEN deal (totalDeals = 1,
wonDeals = lostDeals = 0) evaluates 0 / 0 = NaN: the win rate is NaN
(modelled none), not 0. -/
theorem dealStats_winRate_nan_when_open_only :
    (dealStats [⟨DealStatus.OPEN, 0⟩]).winRate = none ∧
      (dealStats [⟨DealStatus.OPEN, 0⟩]).winRate ≠ some 0 := by
  constructor
  · rfl
  · decide
/-- C4.  After create and after every successful moveStage the deal's
stage belongs to the deal's pipeline; moveStage to a stage that exists
only in other pipelines fails with BAD_REQUEST (and, being an error, the
deal row is not written). -/
theorem deal_stage_pipeline_invariant (stages : List PStage) :
    (∀ cok pok pid sid title value d,
        dealCreate stages cok pok pid sid title value = Except.ok d →
          StageConsistent stages d ∧ d.pipelineId = pid ∧ d.stageId = sid) ∧
    (∀ deal newSid d',
        dealMoveStage stages deal newSid = Except.ok d' →
          StageConsistent stages d' ∧ d'.pipelineId = deal.pipelineId) ∧
    (∀ deal newSid,
        (∀ s ∈ stages, s.id = newSid → s.pipelineId ≠ deal.pipelineId) →
          dealMoveStage stages deal newSid = Except.error ErrCode.BAD_REQUEST) := by
  refine ⟨?_, ?_, ?_⟩
  · intro cok pok pid sid title value d hok
    unfold dealCreate at hok
    split at hok
    · exact absurd hok (by simp)
    · split at hok
      · exact absurd hok (by simp)
      · cases hfind : stageFor stages sid pid with
        | none => rw [hfind] at hok; exact absurd hok (by simp)
        | some s =>
            rw [hfind] at hok
            cases hok
            have hmem := List.mem_of_find?_eq_some hfind
            have hpred := List.find?_some hfind
            simp only [decide_eq_true_eq] at hpred
            exact ⟨⟨s, hmem, hpred.1, hpred.2⟩, rfl, rfl⟩
  · intro deal newSid d' hok
    unfold dealMoveStage at hok
    cases hfind2 : stageFor stages newSid deal.pipelineId with
    | none => rw [hfind2] at hok; exact absurd hok (by simp)
    | some s =>
        rw [hfind2] at hok
        cases hok
        have hmem := List.mem_of_find?_eq_some hfind2
        have hpred := List.find?_some hfind2
        simp only [decide_eq_true_eq] at hpred
        exact ⟨⟨s, hmem, hpred.1, hpred.2⟩, rfl⟩
  · intro deal newSid hnone
    unfold dealMoveStage
    cases hfind : stageFor stages newSid deal.pipelineId with
    | none => rfl
    | some s =>
        have hmem := List.mem_of_find?_eq_some hfind
        have hpred := List.find?_some hfind
        simp only [decide_eq_true_eq] at hpred
        exact absurd hpred.2 (hnone s hmem hpred.1)
/-- Witness for deal_stage_pipeline_invariant at a concrete store. -/
theorem deal_stage_pipeline_invariant_witness :
    StageConsistent [PStage.mk 10 1 0]
      { title := "t", value := 0, pipelineId := 1, stageId := 10,
        status := DealStatus.OPEN, actualCloseDate := none } := by
  have h := (deal_stage_pipeline_invariant [PStage.mk 10 1 0]).1
    true true 1 10 "t" 0
    { title := "t", value := 0, pipelineId := 1, stageId := 10,
      status := DealStatus.OPEN, actualCloseDate := none } (by rfl)
  exact h.1
/-- C5 counterexample.  dealRouter.update passes any requested status
straight through with no guard on the current status: updating a WON
deal with status OPEN returns it to OPEN (and a WON deal can likewise be
set to LOST). -/
theorem dealUpdate_reopens_won_deal :
    wonDealExample.status = DealStatus.WON ∧
      (dealUpdate 9 wonDealExample ⟨none, none, some DealStatus.OPEN⟩).status =
        DealStatus.OPEN ∧
      (dealUpdate 9 wonDealExample ⟨none, none, some DealStatus.LOST⟩).status =
        DealStatus.LOST := by
  exact ⟨rfl, rfl, rfl⟩
/-- C5 amended.  The code enforces no transition relation at all:
dealRouter.update sets the status to exactly what the input carries
(current status ignored), and leaves it unchanged when the input has no
status; deals are created with status OPEN.  In particular WON/LOST
deals can be moved back to OPEN or to the other terminal status. -/
theorem dealUpdate_status_unguarded :
    (∀ (now : ℤ) (deal : Deal) (inp : DealUpdateInput),
        (dealUpdate now deal inp).status = inp.status.getD deal.status) ∧
    (∀ stages cok pok pid sid title value d,
        dealCreate stages cok pok pid sid title value = Except.ok d →
          d.status = DealStatus.OPEN) := by
  constructor
  · intro now deal inp
    rfl
  · intro stages cok pok pid sid title value d hok
    unfold dealCreate at hok
    split at hok
    · exact absurd hok (by simp)
    · split at hok
      · exact absurd hok (by simp)
      · cases hfind : stageFor stages sid pid with
        | none => rw [hfind] at hok; exact absurd hok (by simp)
        | some s => rw [hfind] at hok; cases hok; rfl
/-- Witness for dealUpdate_status_unguarded. -/
theorem dealUpdate_status_unguarded_witness :
    (dealUpdate 3 wonDealExample ⟨none, none, some DealStatus.OPEN⟩).status =
        (some DealStatus.OPEN).getD wonDealExample.status ∧
      Deal.status
          { title := "t", value := 0, pipelineId := 1, stageId := 10,
            status := DealStatus.OPEN, actualCloseDate := none } =
        DealStatus.OPEN := by
  refine ⟨dealUpdate_status_unguarded.1 3 wonDealExample
      ⟨none, none, some DealStatus.OPEN⟩, ?_⟩
  exact dealUpdate_status_unguarded.2 [PStage.mk 10 1 0] true true 1 10 "t" 0
    { title := "t", value := 0, pipelineId := 1, stageId := 10,
      status := DealStatus.OPEN, actualCloseDate := none } (by rfl)
/-- C6 counterexample.  Close a deal (WON at time 5: actualCloseDate is
stamped) and then update it back to OPEN: the deal is OPEN yet its
actualCloseDate is still some 5, so an OPEN deal need not have a null
actualCloseDate. -/
theorem open_deal_with_close_date :
    ((dealUpdate 9
        (dealUpdate 5
          { title := "d", value := 0, pipelineId := 1, stageId := 10,
            status := DealStatus.OPEN, actualCloseDate := none }
          ⟨none, none, some DealStatus.WON⟩)
        ⟨none, none, some DealStatus.OPEN⟩).status = DealStatus.OPEN) ∧
      ((dealUpdate 9
        (dealUpdate 5
          { title := "d", value := 0, pipelineId := 1, stageId := 10,
            status := DealStatus.OPEN, actualCloseDate := none }
          ⟨none, none, some DealStatus.WON⟩)
        ⟨none, none, some DealStatus.OPEN⟩).actualCloseDate = some 5) := by
  exact ⟨rfl, rfl⟩
/-- C6 amended.  An update whose input carries status WON or LOST stamps
actualCloseDate = now unconditionally (even if already set); an update
carrying status OPEN or no status leaves actualCloseDate unchanged (it
is never cleared); creation yields an OPEN deal with null
actualCloseDate.  Consequently only deals that have never left OPEN are
guaranteed to have actualCloseDate = null. -/
theorem dealUpdate_actualCloseDate_spec :
    (∀ (now : ℤ) (deal : Deal) (inp : DealUpdateInput),
        ((inp.status = some DealStatus.WON ∨ inp.status = some DealStatus.LOST) →
            (dealUpdate now deal inp).actualCloseDate = some now) ∧
        ((inp.status = some DealStatus.OPEN ∨ inp.status = none) →
            (dealUpdate now deal inp).actualCloseDate = deal.actualCloseDate)) ∧
    (∀ stages cok pok pid sid title value d,
        dealCreate stages cok pok pid sid title value = Except.ok d →
          d.actualCloseDate = none) := by
  constructor
  · intro now deal inp
    constructor
    · intro h
      unfold dealUpdate
      rcases h with h | h <;> rw [h] <;> simp
    · intro h
      unfold dealUpdate
      split
      · rename_i hcon
        rcases h with h | h <;> rw [h] at hcon <;> simp at hcon
      · rfl
  · intro stages cok pok pid sid title value d hok
    unfold dealCreate at hok
    split at hok
    · exact absurd hok (by simp)
    · split at hok
      · exact absurd hok (by simp)
      · cases hfind : stageFor stages sid pid with
        | none => rw [hfind] at hok; exact absurd hok (by simp)
        | some s => rw [hfind] at hok; cases hok; rfl
/-- Witness for dealUpdate_actualCloseDate_spec. -/
theorem dealUpdate_actualCloseDate_spec_witness :
    (dealUpdate 11 wonDealExample ⟨none, none, some DealStatus.WON⟩).actualCloseDate =
        some 11 ∧
      Deal.actualCloseDate
          { title := "t", value := 0, pipelineId := 1, stageId := 10,
            status := DealStatus.OPEN, actualCloseDate := none } =
        none := by
  refine ⟨(dealUpdate_actualCloseDate_spec.1 11 wonDealExample
      ⟨none, none, some DealStatus.WON⟩).1 (Or.inl rfl), ?_⟩
  exact dealUpdate_actualCloseDate_spec.2 [PStage.mk 10 1 0] true true 1 10 "t" 0
    { title := "t", value := 0, pipelineId := 1, stageId := 10,
      status := DealStatus.OPEN, actualCloseDate := none } (by rfl)
/-- C7.  If the row's status is not QUEUED when send checks it, the
dispatch is a complete no-op for both senders: the provider is not
called, nothing is written, nothing is thrown, the row is unchanged. -/
theorem send_noop_when_not_queued :
    (∀ (account : EmailAccount) (providerOk : Bool) (now : ℤ)
        (email : EmailMsg), email.status ≠ MsgStatus.QUEUED →
          emailSenderSend account providerOk now email =
            ⟨email, [], false, false⟩) ∧
    (∀ (tw pOk : Bool) (now : ℤ) (msid : ℕ) (sms : SmsMsg),
        sms.status ≠ MsgStatus.QUEUED →
          smsSenderSend tw pOk now msid sms = ⟨sms, [], false, false⟩) := by
  constructor
  · intro account providerOk now email h
    unfold emailSenderSend
    rw [if_pos h]
  · intro tw pOk now msid sms h
    unfold smsSenderSend
    rw [if_pos h]
/-- Witness for send_noop_when_not_queued. -/
theorem send_noop_when_not_queued_witness :
    emailSenderSend ⟨EmailProvider.SENDGRID, true⟩ true 0
        ⟨1, 0, MsgStatus.SENT, some 0, none, none, none⟩ =
      ⟨⟨1, 0, MsgStatus.SENT, some 0, none, none, none⟩, [], false, false⟩ ∧
    smsSenderSend true true 0 5 ⟨1, 0, MsgStatus.FAILED, none, none⟩ =
      ⟨⟨1, 0, MsgStatus.FAILED, none, none⟩, [], false, false⟩ := by
  exact ⟨send_noop_when_not_queued.1 ⟨EmailProvider.SENDGRID, true⟩ true 0
      ⟨1, 0, MsgStatus.SENT, some 0, none, none, none⟩ (by decide),
    send_noop_when_not_queued.2 true true 0 5
      ⟨1, 0, MsgStatus.FAILED, none, none⟩ (by decide)⟩
/-- After updating the rows with the found row's id, a search whose
predicate accepts the new row finds the new row (the rows before the
first hit either fail the predicate as before or were replaced by the
new row). -/
theorem find?_updateById_found {α : Type} (idOf : α → ℕ) (p : α → Bool)
    (store : List α) (e e' : α) (hfind : store.find? p = some e)
    (hp : p e' = true) :
    (updateById idOf store (idOf e) e').find? p = some e' := by
  induction store with
  | nil => simp at hfind
  | cons x rest ih =>
      by_cases hx : p x = true
      · have hex : e = x := by
          rw [List.find?_cons_of_pos _ hx] at hfind
          exact (Option.some_inj.mp hfind).symm
        subst hex
        simp only [updateById, List.map_cons, if_pos rfl]
        exact List.find?_cons_of_pos _ hp
      · have hx' : p x = false := by
          cases h : p x
          · rfl
          · exact absurd h hx
        rw [List.find?_cons_of_neg _ (by simp [hx'])] at hfind
        simp only [updateById, List.map_cons]
        by_cases hid : idOf x = idOf e
        · rw [if_pos hid]
          exact List.find?_cons_of_pos _ hp
        · rw [if_neg hid]
          rw [List.find?_cons_of_neg _ (by simp [hx'])]
          exact ih hfind
/-- C9.  Webhook open/click replay is idempotent: the first open event
(on a row whose openedAt is null) writes status OPENED and openedAt;
replaying the same event leaves the store exactly as it was (openedAt
unchanged, status still OPENED); likewise for click.  delivered and
bounce/dropped overwrite the status unconditionally.  The trackOpen
endpoint has the same replay-idempotence. -/
theorem webhook_replay_idempotent :
    (∀ (now1 now2 : ℤ) (store : List EmailMsg) (t : ℕ),
        handleOneSendGridEvent now2
            (handleOneSendGridEvent now1 store SGEvent.openEv (some t))
            SGEvent.openEv (some t) =
          handleOneSendGridEvent now1 store SGEvent.openEv (some t)) ∧
    (∀ (now1 now2 : ℤ) (store : List EmailMsg) (t : ℕ),
        handleOneSendGridEvent now2
            (handleOneSendGridEvent now1 store SGEvent.clickEv (some t))
            SGEvent.clickEv (some t) =
          handleOneSendGridEvent now1 store SGEvent.clickEv (some t)) ∧
    (∀ (now : ℤ) (store : List EmailMsg) (t : ℕ) (e : EmailMsg),
        store.find? (byTracking t) = some e → e.openedAt = none →
          (handleOneSendGridEvent now store SGEvent.openEv
              (some t)).find? (byTracking t) =
            some { e with
                   status := MsgStatus.OPENED
                   openedAt := some now }) ∧
    (∀ (now : ℤ) (store : List EmailMsg) (t : ℕ) (e : EmailMsg),
        store.find? (byTracking t) = some e →
          ((handleOneSendGridEvent now store SGEvent.delivered
              (some t)).find? (byTracking t) =
            some { e with status := MsgStatus.DELIVERED }) ∧
          ((handleOneSendGridEvent now store SGEvent.bounce
              (some t)).find? (byTracking t) =
            some { e with status := MsgStatus.BOUNCED }) ∧
          ((handleOneSendGridEvent now store SGEvent.dropped
              (some t)).find? (byTracking t) =
            some { e with status := MsgStatus.BOUNCED })) ∧
    (∀ (now1 now2 : ℤ) (store : List EmailMsg) (t : ℕ),
        trackOpen now2 (trackOpen now1 store t) t =
          trackOpen now1 store t) := by
  have htid : ∀ (t : ℕ) (store : List EmailMsg) (e : EmailMsg),
      store.find? (byTracking t) = some e → e.trackingId = some t := by
    intro t store e hfind
    have := List.find?_some hfind
    simpa [byTracking] using this
  refine ⟨?_, ?_, ?_, ?_, ?_⟩
  · intro now1 now2 store t
    cases hfind : store.find? (byTracking t) with
    | none => simp [handleOneSendGridEvent, hfind]
    | some e =>
        by_cases ho : e.openedAt = none
        · have h1 : handleOneSendGridEvent now1 store SGEvent.openEv (some t) =
              updateById EmailMsg.id store e.id
                { e with
                  status := MsgStatus.OPENED
                  openedAt := some now1 } := by
            simp [handleOneSendGridEvent, hfind, ho]
          have h2 := find?_updateById_found EmailMsg.id (byTracking t) store e
            { e with
              status := MsgStatus.OPENED
              openedAt := some now1 } hfind
            (by simp [byTracking, htid t store e hfind])
          rw [h1]
          simp [handleOneSendGridEvent, h2]
        · simp [handleOneSendGridEvent, hfind, ho]
  · intro now1 now2 store t
    cases hfind : store.find? (byTracking t) with
    | none => simp [handleOneSendGridEvent, hfind]
    | some e =>
        by_cases ho : e.clickedAt = none
        · have h1 : handleOneSendGridEvent now1 store SGEvent.clickEv (some t) =
              updateById EmailMsg.id store e.id
                { e with
                  status := MsgStatus.CLICKED
                  clickedAt := some now1 } := by
            simp [handleOneSendGridEvent, hfind, ho]
          have h2 := find?_updateById_found EmailMsg.id (byTracking t) store e
            { e with
              status := MsgStatus.CLICKED
              clickedAt := some now1 } hfind
            (by simp [byTracking, htid t store e hfind])
          rw [h1]
          simp [handleOneSendGridEvent, h2]
        · simp [handleOneSendGridEvent, hfind, ho]
  · intro now store t e hfind ho
    have h1 : handleOneSendGridEvent now store SGEvent.openEv (some t) =
        updateById EmailMsg.id store e.id
          { e with
            status := MsgStatus.OPENED
            openedAt := some now } := by
      simp [handleOneSendGridEvent, hfind, ho]
    rw [h1]
    exact find?_updateById_found EmailMsg.id (byTracking t) store e _
      hfind (by simp [byTracking, htid t store e hfind])
  · intro now store t e hfind
    refine ⟨?_, ?_, ?_⟩
    · have h1 := find?_updateById_found EmailMsg.id (byTracking t) store e
        { e with status := MsgStatus.DELIVERED } hfind
        (by simp [byTracking, htid t store e hfind])
      simp only [handleOneSendGridEvent, hfind]
      exact h1
    · have h1 := find?_updateById_found EmailMsg.id (byTracking t) store e
        { e with status := MsgStatus.BOUNCED } hfind
        (by simp [byTracking, htid t store e hfind])
      simp only [handleOneSendGridEvent, hfind]
      exact h1
    · have h1 := find?_updateById_found EmailMsg.id (byTracking t) store e
        { e with status := MsgStatus.BOUNCED } hfind
        (by simp [byTracking, htid t store e hfind])
      simp only [handleOneSendGridEvent, hfind]
      exact h1
  · intro now1 now2 store t
    cases hfind : store.find? (byTracking t) with
    | none => simp [trackOpen, hfind]
    | some e =>
        by_cases ho : e.openedAt = none
        · have h1 : trackOpen now1 store t =
              updateById EmailMsg.id store e.id
                { e with
                  status := MsgStatus.OPENED
                  openedAt := some now1 } := by
            simp [trackOpen, hfind, ho]
          have h2 := find?_updateById_found EmailMsg.id (byTracking t) store e
            { e with
              status := MsgStatus.OPENED
              openedAt := some now1 } hfind
            (by simp [byTracking, htid t store e hfind])
          rw [h1]
          simp [trackOpen, h2]
        · simp [trackOpen, hfind, ho]
/-- Witness for webhook_replay_idempotent on a one-row store. -/
theorem webhook_replay_idempotent_witness :
    (handleOneSendGridEvent 4
        [⟨1, 0, MsgStatus.DELIVERED, some 0, none, none, some 9⟩]
        SGEvent.openEv (some 9)).find? (byTracking 9) =
      some ⟨1, 0, MsgStatus.OPENED, some 0, some 4, none, some 9⟩ := by
  exact webhook_replay_idempotent.2.2.1 4
    [⟨1, 0, MsgStatus.DELIVERED, some 0, none, none, some 9⟩] 9
    ⟨1, 0, MsgStatus.DELIVERED, some 0, none, none, some 9⟩ (by rfl) rfl
/-- Updating rows under key i does not disturb a search for a different
id, provided the new row keeps the key. -/
theorem find?_updateById_ne {α : Type} (idOf : α → ℕ) (store : List α)
    (i : ℕ) (new : α) (j : ℕ) (hnew : idOf new = i) (hij : j ≠ i) :
    (updateById idOf store i new).find? (fun x => idOf x = j) =
      store.find? (fun x => idOf x = j) := by
  induction store with
  | nil => rfl
  | cons x rest ih =>
      simp only [updateById, List.map_cons]
      by_cases hx : idOf x = i
      · rw [if_pos hx]
        rw [List.find?_cons_of_neg _ (by simp [hnew]; omega)]
        rw [List.find?_cons_of_neg _ (by simp [hx]; omega)]
        exact ih
      · rw [if_neg hx]
        by_cases hxj : idOf x = j
        · rw [List.find?_cons_of_pos _ (by simp [hxj]),
            List.find?_cons_of_pos _ (by simp [hxj])]
        · rw [List.find?_cons_of_neg _ (by simp [hxj]),
            List.find?_cons_of_neg _ (by simp [hxj])]
          exact ih
/-- With pairwise-distinct ids, searching for a member's id finds exactly
that member. -/
theorem find?_eq_self_of_nodup {α : Type} (idOf : α → ℕ)
    (store : List α) (b : α) (hN : (store.map idOf).Nodup)
    (hb : b ∈ store) :
    store.find? (fun x => idOf x = idOf b) = some b := by
  induction store with
  | nil => simp at hb
  | cons x rest ih =>
      simp only [List.map_cons, List.nodup_cons] at hN
      rcases List.mem_cons.mp hb with hbx | hbr
      · subst hbx
        exact List.find?_cons_of_pos _ (by simp)
      · by_cases hx : idOf x = idOf b
        · exact absurd (hx ▸ List.mem_map_of_mem idOf hbr) hN.1
        · rw [List.find?_cons_of_neg _ (by simp [hx])]
          exact ih hN.2 hbr
/-- Folding procStep over a batch that never mentions id j leaves the
row with id j untouched. -/
theorem foldl_procStep_preserve {α : Type} (idOf : α → ℕ) (send : α → α)
    (hsend : ∀ x, idOf (send x) = idOf x) (B : List α) (st : List α)
    (j : ℕ) (hB : ∀ r ∈ B, idOf r ≠ j) :
    (B.foldl (procStep idOf send) st).find? (fun x => idOf x = j) =
      st.find? (fun x => idOf x = j) := by
  induction B generalizing st with
  | nil => rfl
  | cons b rest ih =>
      simp only [List.foldl_cons]
      rw [ih _ (fun r hr => hB r (List.mem_cons_of_mem b hr))]
      unfold procStep
      cases hcur : st.find? (fun x => idOf x = idOf b) with
      | none => rfl
      | some cur =>
          have hcb : idOf cur = idOf b := by
            have := List.find?_some hcur
            simpa using this
          exact find?_updateById_ne idOf st (idOf b) (send cur) j
            (by rw [hsend, hcb]) (Ne.symm (hB b (List.mem_cons_self b rest)))
/-- Core batch lemma: when the batch rows are present in the store and
ids are pairwise distinct, every batch row ends up replaced by its own
send result, independent of what send does to the other rows. -/
theorem foldl_procStep_processes {α : Type} (idOf : α → ℕ) (send : α → α)
    (hsend : ∀ x, idOf (send x) = idOf x) (B : List α) (st : List α)
    (hN : (B.map idOf).Nodup)
    (hB : ∀ b ∈ B, st.find? (fun x => idOf x = idOf b) = some b)
    (m : α) (hm : m ∈ B) :
    (B.foldl (procStep idOf send) st).find? (fun x => idOf x = idOf m) =
      some (send m) := by
  induction B generalizing st with
  | nil => simp at hm
  | cons b rest ih =>
      simp only [List.map_cons, List.nodup_cons] at hN
      have hstep : procStep idOf send st b =
          updateById idOf st (idOf b) (send b) := by
        unfold procStep
        rw [hB b (List.mem_cons_self b rest)]
      simp only [List.foldl_cons, hstep]
      rcases List.mem_cons.mp hm with hmb | hmr
      · subst hmb
        rw [foldl_procStep_preserve idOf send hsend rest _ (idOf m)
          (fun r hr hrj => hN.1 (hrj ▸ List.mem_map_of_mem idOf hr))]
        exact find?_updateById_found idOf _ st m (send m)
          (hB m (List.mem_cons_self m rest)) (by simp [hsend])
      · refine ih _ hN.2 ?_ hmr
        intro r hr
        rw [find?_updateById_ne idOf st (idOf b) (send b) (idOf r)
          (hsend b) (fun hrj => hN.1 (hrj ▸ List.mem_map_of_mem idOf hr))]
        exact hB r (List.mem_cons_of_mem b hr)
/-- The email sender never changes the row id. -/
theorem emailSenderSend_id (account : EmailAccount) (pOk : Bool) (now : ℤ)
    (email : EmailMsg) :
    (emailSenderSend account pOk now email).msg.id = email.id := by
  unfold emailSenderSend
  split
  · rfl
  · split
    · split_ifs <;> rfl
    · split_ifs <;> rfl
    · rfl
/-- The sms sender never changes the row id. -/
theorem smsSenderSend_id (tw pOk : Bool) (now : ℤ) (msid : ℕ)
    (sms : SmsMsg) :
    (smsSenderSend tw pOk now msid sms).msg.id = sms.id := by
  unfold smsSenderSend
  split_ifs <;> rfl
/-- Batch rows come from the store. -/
theorem mem_of_mem_sorted_take {α : Type} (r : α → α → Prop)
    [DecidableRel r] (p : α → Bool) (n : ℕ) (store : List α) (m : α)
    (hm : m ∈ (List.insertionSort r (store.filter p)).take n) :
    m ∈ store :=
  List.mem_of_mem_filter
    ((List.perm_insertionSort r (store.filter p)).subset
      (List.take_subset n _ hm))
/-- Distinct store ids give distinct batch ids. -/
theorem nodup_map_sorted_take {α : Type} (r : α → α → Prop)
    [DecidableRel r] (p : α → Bool) (n : ℕ) (idOf : α → ℕ)
    (store : List α) (hN : (store.map idOf).Nodup) :
    (((List.insertionSort r (store.filter p)).take n).map idOf).Nodup := by
  have h1 : ((store.filter p).map idOf).Nodup :=
    ((List.filter_sublist store).map idOf).nodup hN
  have h2 : ((List.insertionSort r (store.filter p)).map idOf).Nodup :=
    (((List.perm_insertionSort r (store.filter p)).map idOf).nodup_iff).mpr h1
  exact ((List.take_sublist n _).map idOf).nodup h2
/-- C8.  Synchronous dispatch of a QUEUED row whose provider call fails
writes FAILED and re-raises the error to its caller (both senders); and
batch polling processes each selected row independently: whatever the
provider outcome per row, every row of the batch ends up holding its own
send result, so one failing item never prevents the others from being
processed. -/
theorem provider_failure_isolated :
    (∀ (account : EmailAccount) (now : ℤ) (email : EmailMsg),
        email.status = MsgStatus.QUEUED →
          (emailSenderSend account false now email).msg.status =
              MsgStatus.FAILED ∧
            (emailSenderSend account false now email).threw = true) ∧
    (∀ (tw : Bool) (now : ℤ) (msid : ℕ) (sms : SmsMsg),
        sms.status = MsgStatus.QUEUED →
          (smsSenderSend tw false now msid sms).msg.status =
              MsgStatus.FAILED ∧
            (smsSenderSend tw false now msid sms).threw = true) ∧
    (∀ (accountOf : ℕ → EmailAccount) (providerOk : ℕ → Bool) (now : ℤ)
        (store : List EmailMsg) (m : EmailMsg),
        (store.map EmailMsg.id).Nodup → m ∈ emailBatch store →
          (emailProcessQueue accountOf providerOk now store).find?
              (fun x => x.id = m.id) =
            some (emailSendStep accountOf providerOk now m)) ∧
    (∀ (twilioOf pOk : ℕ → Bool) (msidOf : ℕ → ℕ) (now : ℤ)
        (store : List SmsMsg) (m : SmsMsg),
        (store.map SmsMsg.id).Nodup → m ∈ smsBatch store →
          (smsProcessQueue twilioOf pOk msidOf now store).find?
              (fun x => x.id = m.id) =
            some (smsSendStep twilioOf pOk msidOf now m)) := by
  refine ⟨?_, ?_, ?_, ?_⟩
  · intro account now email h
    unfold emailSenderSend
    rw [if_neg (by simp [h])]
    constructor
    · cases account.provider
      · by_cases hk : account.hasApiKey <;> simp [hk]
      · simp
      · simp
    · cases account.provider
      · by_cases hk : account.hasApiKey <;> simp [hk]
      · simp
      · simp
  · intro tw now msid sms h
    unfold smsSenderSend
    rw [if_neg (by simp [h])]
    by_cases htw : tw <;> simp [htw]
  · intro accountOf providerOk now store m hN hm
    exact foldl_procStep_processes EmailMsg.id
      (emailSendStep accountOf providerOk now)
      (fun x => emailSenderSend_id (accountOf x.id) (providerOk x.id) now x)
      (emailBatch store) store
      (nodup_map_sorted_take _ _ 10 EmailMsg.id store hN)
      (fun b hb => find?_eq_self_of_nodup EmailMsg.id store b hN
        (mem_of_mem_sorted_take _ _ 10 store b hb))
      m hm
  · intro twilioOf pOk msidOf now store m hN hm
    exact foldl_procStep_processes SmsMsg.id
      (smsSendStep twilioOf pOk msidOf now)
      (fun x => smsSenderSend_id (twilioOf x.id) (pOk x.id) now
        (msidOf x.id) x)
      (smsBatch store) store
      (nodup_map_sorted_take _ _ 10 SmsMsg.id store hN)
      (fun b hb => find?_eq_self_of_nodup SmsMsg.id store b hN
        (mem_of_mem_sorted_take _ _ 10 store b hb))
      m hm
/-- Witness for provider_failure_isolated: a two-row queue where the
provider fails on row 0 and succeeds on row 1; row 0 ends FAILED, row 1
ends SENT. -/
theorem provider_failure_isolated_witness :
    ((emailProcessQueue (fun _ => ⟨EmailProvider.SENDGRID, true⟩)
          (fun i => decide (i = 1)) 5
          [⟨0, 0, MsgStatus.QUEUED, none, none, none, none⟩,
           ⟨1, 1, MsgStatus.QUEUED, none, none, none, none⟩]).find?
        (fun x => x.id =
          (EmailMsg.mk 0 0 MsgStatus.QUEUED none none none none).id) =
      some ⟨0, 0, MsgStatus.FAILED, none, none, none, none⟩) ∧
    ((emailProcessQueue (fun _ => ⟨EmailProvider.SENDGRID, true⟩)
          (fun i => decide (i = 1)) 5
          [⟨0, 0, MsgStatus.QUEUED, none, none, none, none⟩,
           ⟨1, 1, MsgStatus.QUEUED, none, none, none, none⟩]).find?
        (fun x => x.id =
          (EmailMsg.mk 1 1 MsgStatus.QUEUED none none none none).id) =
      some ⟨1, 1, MsgStatus.SENT, some 5, none, none, none⟩) := by
  constructor
  · have h := provider_failure_isolated.2.2.1
      (fun _ => ⟨EmailProvider.SENDGRID, true⟩) (fun i => decide (i = 1)) 5
      [⟨0, 0, MsgStatus.QUEUED, none, none, none, none⟩,
       ⟨1, 1, MsgStatus.QUEUED, none, none, none, none⟩]
      ⟨0, 0, MsgStatus.QUEUED, none, none, none, none⟩
      (by decide) (by decide)
    exact h.trans (by decide)
  · have h := provider_failure_isolated.2.2.1
      (fun _ => ⟨EmailProvider.SENDGRID, true⟩) (fun i => decide (i = 1)) 5
      [⟨0, 0, MsgStatus.QUEUED, none, none, none, none⟩,
       ⟨1, 1, MsgStatus.QUEUED, none, none, none, none⟩]
      ⟨1, 1, MsgStatus.QUEUED, none, none, none, none⟩
      (by decide) (by decide)
    exact h.trans (by decide)
/-- With pairwise distinct ids, dropping up to a member's id stops
exactly at that member. -/
theorem head?_dropWhile_ne_id {α : Type} (idOf : α → ℕ) (rows : List α)
    (r : α) (nid : ℕ) (hN : (rows.map idOf).Nodup) (hr : r ∈ rows)
    (hid : idOf r = nid) :
    (rows.dropWhile (fun x => ¬ idOf x = nid)).head? = some r := by
  induction rows with
  | nil => simp at hr
  | cons x rest ih =>
      simp only [List.map_cons, List.nodup_cons] at hN
      by_cases hx : idOf x = nid
      · rw [List.dropWhile_cons_of_neg (by simp [hx])]
        rcases List.mem_cons.mp hr with hrx | hrr
        · rw [hrx]; rfl
        · exact absurd (by rw [hx, ← hid]; exact List.mem_map_of_mem idOf hrr)
            hN.1
      · rw [List.dropWhile_cons_of_pos (by simp [hx])]
        rcases List.mem_cons.mp hr with hrx | hrr
        · exact absurd (hrx ▸ hid) hx
        · exact ih hN.2 hrr
/-- Taking at least one element preserves the head. -/
theorem head?_take_succ {α : Type} (l : List α) (n : ℕ) :
    (l.take (n + 1)).head? = l.head? := by
  cases l <;> rfl
/-- C10.  For every list query: the page holds at most limit rows;
nextCursor is produced exactly when more than limit rows remain at or
beyond the cursor position; and when produced, nextCursor is the id of
the (limit + 1)-st remaining row, the page is the first limit remaining
rows, and querying again with nextCursor starts exactly at that row
(ids assumed pairwise distinct, limit at least 1 as the schema
enforces). -/
theorem listPage_spec {α : Type} (idOf : α → ℕ) (rows : List α)
    (cursor : Option ℕ) (limit : ℕ) (hN : (rows.map idOf).Nodup)
    (hL : 1 ≤ limit) :
    (listPage idOf rows cursor limit).1.length ≤ limit ∧
    ((listPage idOf rows cursor limit).2 ≠ none ↔
      limit < (fromCursor idOf rows cursor).length) ∧
    (∀ nid, (listPage idOf rows cursor limit).2 = some nid →
      (listPage idOf rows cursor limit).1 =
          (fromCursor idOf rows cursor).take limit ∧
        ∃ r, (fromCursor idOf rows cursor)[limit]? = some r ∧
          idOf r = nid ∧
          (listPage idOf rows (some nid) limit).1.head? = some r) := by
  have hlen : ((fromCursor idOf rows cursor).take (limit + 1)).length =
      min (limit + 1) (fromCursor idOf rows cursor).length :=
    List.length_take _ _
  by_cases hfull :
      limit < ((fromCursor idOf rows cursor).take (limit + 1)).length
  · have hflen :
        ((fromCursor idOf rows cursor).take (limit + 1)).length =
          limit + 1 := by omega
    have hFlen : limit < (fromCursor idOf rows cursor).length := by omega
    have hlast : ((fromCursor idOf rows cursor).take (limit + 1)).getLast? =
        (fromCursor idOf rows cursor)[limit]? := by
      rw [List.getLast?_eq_getElem?, hflen]
      simp [List.getElem?_take]
    refine ⟨?_, ?_, ?_⟩
    · simp only [listPage, if_pos hfull]
      rw [List.length_dropLast, hflen]
      omega
    · simp only [listPage, if_pos hfull]
      constructor
      · intro _
        exact hFlen
      · intro _
        rw [hlast]
        cases hg : (fromCursor idOf rows cursor)[limit]? with
        | none =>
            rw [List.getElem?_eq_none_iff] at hg
            exact absurd hFlen (by omega)
        | some r => simp
    · intro nid hnid
      simp only [listPage, if_pos hfull] at hnid ⊢
      cases hg : (fromCursor idOf rows cursor)[limit]? with
      | none =>
          rw [List.getElem?_eq_none_iff] at hg
          exact absurd hFlen (by omega)
      | some r =>
          have hrid : idOf r = nid := by
            rw [hlast, hg] at hnid
            simpa using hnid
          refine ⟨?_, r, rfl, hrid, ?_⟩
          · rw [List.dropLast_eq_take, hflen]
            simp only [Nat.add_sub_cancel]
            rw [List.take_take]
            congr 1
            omega
          · have hrF : r ∈ fromCursor idOf rows cursor :=
              List.getElem?_mem hg
            have hrrows : r ∈ rows := by
              cases cursor with
              | none => exact hrF
              | some c => exact (List.dropWhile_sublist _).mem hrF
            have hhead : (fromCursor idOf rows (some nid)).head? = some r :=
              head?_dropWhile_ne_id idOf rows r nid hN hrrows hrid
            by_cases hfull2 : limit <
                ((fromCursor idOf rows (some nid)).take (limit + 1)).length
            · simp only [listPage, if_pos hfull2]
              have hglen :
                  ((fromCursor idOf rows (some nid)).take
                      (limit + 1)).length = limit + 1 := by
                have := List.length_take (limit + 1)
                  (fromCursor idOf rows (some nid))
                omega
              rw [List.dropLast_eq_take, hglen]
              simp only [Nat.add_sub_cancel]
              rw [List.take_take]
              have hmin : min limit (limit + 1) = limit := by omega
              rw [hmin]
              cases hGc : fromCursor idOf rows (some nid) with
              | nil =>
                  rw [hGc] at hhead
                  simp at hhead
              | cons g gs =>
                  have hg1 : g = r := by
                    rw [hGc] at hhead
                    simpa using hhead
                  cases limit with
                  | zero => omega
                  | succ k =>
                      rw [hg1]
                      rfl
            · simp only [listPage, if_neg hfull2]
              rw [head?_take_succ, hhead]
  · refine ⟨?_, ?_, ?_⟩
    · simp only [listPage, if_neg hfull]
      omega
    · simp only [listPage, if_neg hfull]
      constructor
      · intro h
        exact absurd rfl h
      · intro h
        exact absurd h (by omega)
    · intro nid hnid
      simp only [listPage, if_neg hfull] at hnid
      exact absurd hnid (by simp)
/-- Witness for listPage_spec: rows with ids 5, 6, 7 and limit 1 give a
one-row page and nextCursor 6; paging on from 6 starts at row 6. -/
theorem listPage_spec_witness :
    (listPage (fun x => x) [5, 6, 7] none 1).1.length ≤ 1 ∧
      ((listPage (fun x => x) [5, 6, 7] none 1).2 ≠ none ↔
        1 < (fromCursor (fun x => x) [5, 6, 7] none).length) := by
  have h := listPage_spec (fun x => x) [5, 6, 7] none 1 (by decide)
    (by decide)
  exact ⟨h.1, h.2.1⟩
theorem occ_append (l t : List PStage) (pid : ℕ) (m : ℤ) :
    occ (l ++ t) pid m = occ l pid m + occ t pid m :=
  List.countP_append _ _ _
theorem stageCount_append (l t : List PStage) (pid : ℕ) :
    stageCount (l ++ t) pid = stageCount l pid + stageCount t pid :=
  List.countP_append _ _ _
theorem occ_le_stageCount (stages : List PStage) (pid : ℕ) (m : ℤ) :
    occ stages pid m ≤ stageCount stages pid :=
  List.countP_mono_left (fun s _ h => by
    simp only [decide_eq_true_eq] at h ⊢
    exact h.1)
theorem occ_mk_singleton (i p2 : ℕ) (o : ℤ) (pid : ℕ) (m : ℤ) :
    occ [PStage.mk i p2 o] pid m = if p2 = pid ∧ o = m then 1 else 0 := by
  by_cases hc : p2 = pid ∧ o = m <;> simp [occ, List.countP_cons, hc]
theorem stageCount_mk_singleton (i p2 : ℕ) (o : ℤ) (pid : ℕ) :
    stageCount [PStage.mk i p2 o] pid = if p2 = pid then 1 else 0 := by
  by_cases hc : p2 = pid <;> simp [stageCount, List.countP_cons, hc]
theorem occ_createPipelineStages (pid k f : ℕ) (pid' : ℕ) (m : ℤ) :
    occ (createPipelineStages pid k f) pid' m =
      if pid' = pid ∧ 0 ≤ m ∧ m < (k : ℤ) then 1 else 0 := by
  induction k with
  | zero =>
      rw [show occ (createPipelineStages pid 0 f) pid' m = 0 from rfl]
      split_ifs with h
      · exfalso
        have := h.2
        omega
      · rfl
  | succ n ih =>
      unfold createPipelineStages at ih ⊢
      rw [List.range_succ, List.map_append, occ_append, ih]
      simp only [List.map_cons, List.map_nil]
      rw [occ_mk_singleton]
      split_ifs <;> omega
theorem stageCount_createPipelineStages (pid k f : ℕ) (pid' : ℕ) :
    stageCount (createPipelineStages pid k f) pid' =
      if pid' = pid then k else 0 := by
  induction k with
  | zero =>
      rw [show stageCount (createPipelineStages pid 0 f) pid' = 0 from rfl]
      split_ifs <;> rfl
  | succ n ih =>
      unfold createPipelineStages at ih ⊢
      rw [List.range_succ, List.map_append, stageCount_append, ih]
      simp only [List.map_cons, List.map_nil]
      rw [stageCount_mk_singleton]
      split_ifs <;> omega
theorem stageCount_map_preserve (stages : List PStage) (g : PStage → PStage)
    (pid : ℕ) (hg : ∀ s, (g s).pipelineId = s.pipelineId) :
    stageCount (stages.map g) pid = stageCount stages pid := by
  unfold stageCount
  rw [List.countP_map]
  apply List.countP_congr
  intro s _
  simp [Function.comp, hg s]
/-- Occurrence counts after the addStage shift (updateMany with
order increment on one pipeline). -/
theorem occ_shiftUp (stages : List PStage) (pid : ℕ) (p : ℤ)
    (pid' : ℕ) (m : ℤ) :
    occ (stages.map (fun s =>
        if s.pipelineId = pid ∧ p ≤ s.order then
          { s with order := s.order + 1 }
        else s)) pid' m =
      if pid' = pid then
        (if p < m then occ stages pid (m - 1)
         else if m < p then occ stages pid m else 0)
      else occ stages pid' m := by
  unfold occ
  rw [List.countP_map]
  by_cases hpp : pid' = pid
  · subst hpp
    by_cases h1 : p < m
    · rw [if_pos rfl, if_pos h1]
      apply List.countP_congr
      intro s _
      simp only [Function.comp_apply]
      by_cases hs : s.pipelineId = pid' ∧ p ≤ s.order
      · rw [if_pos hs]
        dsimp only
        simp only [decide_eq_true_eq]
        omega
      · rw [if_neg hs]
        simp only [decide_eq_true_eq]
        omega
    · by_cases h2 : m < p
      · rw [if_pos rfl, if_neg h1, if_pos h2]
        apply List.countP_congr
        intro s _
        simp only [Function.comp_apply]
        by_cases hs : s.pipelineId = pid' ∧ p ≤ s.order
        · rw [if_pos hs]
          dsimp only
          simp only [decide_eq_true_eq]
          omega
        · rw [if_neg hs]
      · rw [if_pos rfl, if_neg h1, if_neg h2]
        rw [List.countP_eq_zero]
        intro s _
        simp only [Function.comp_apply]
        by_cases hs : s.pipelineId = pid' ∧ p ≤ s.order
        · rw [if_pos hs]
          dsimp only
          simp only [decide_eq_true_eq]
          omega
        · rw [if_neg hs]
          simp only [decide_eq_true_eq]
          omega
  · rw [if_neg hpp]
    apply List.countP_congr
    intro s _
    simp only [Function.comp_apply]
    by_cases hs : s.pipelineId = pid ∧ p ≤ s.order
    · rw [if_pos hs]
      dsimp only
      simp only [decide_eq_true_eq]
      omega
    · rw [if_neg hs]
/-- Counting a disjunction of two disjoint predicates splits into a
sum. -/
theorem countP_or_split (l : List PStage) (p q : PStage → Bool)
    (hdisj : ∀ a, ¬(p a = true ∧ q a = true)) :
    l.countP (fun a => p a || q a) = l.countP p + l.countP q := by
  induction l with
  | nil => rfl
  | cons x t ih =>
      simp only [List.countP_cons, ih, Bool.or_eq_true]
      by_cases hp : p x = true
      · have hq : ¬ q x = true := fun h => hdisj x ⟨hp, h⟩
        rw [if_pos (Or.inl hp), if_pos hp, if_neg hq]
        omega
      · by_cases hq : q x = true
        · rw [if_pos (Or.inr hq), if_neg hp, if_pos hq]
          omega
        · rw [if_neg (by tauto), if_neg hp, if_neg hq]
          omega
/-- Occurrence counts after the deleteStage shift (raw UPDATE with order
decrement on one pipeline). -/
theorem occ_shiftDown (stages : List PStage) (pid : ℕ) (k : ℤ)
    (pid' : ℕ) (m : ℤ) :
    occ (stages.map (fun s =>
        if s.pipelineId = pid ∧ k < s.order then
          { s with order := s.order - 1 }
        else s)) pid' m =
      if pid' = pid then
        (if k ≤ m then occ stages pid (m + 1) else 0) +
          (if m ≤ k then occ stages pid m else 0)
      else occ stages pid' m := by
  unfold occ
  rw [List.countP_map]
  by_cases hpp : pid' = pid
  · subst hpp
    by_cases h1 : m < k
    · rw [if_pos rfl, if_neg (by omega), if_pos (by omega), Nat.zero_add]
      apply List.countP_congr
      intro s _
      simp only [Function.comp_apply]
      by_cases hs : s.pipelineId = pid' ∧ k < s.order
      · rw [if_pos hs]
        dsimp only
        simp only [decide_eq_true_eq]
        omega
      · rw [if_neg hs]
    · by_cases h2 : k < m
      · rw [if_pos rfl, if_pos (by omega), if_neg (by omega), Nat.add_zero]
        apply List.countP_congr
        intro s _
        simp only [Function.comp_apply]
        by_cases hs : s.pipelineId = pid' ∧ k < s.order
        · rw [if_pos hs]
          dsimp only
          simp only [decide_eq_true_eq]
          omega
        · rw [if_neg hs]
          simp only [decide_eq_true_eq]
          omega
      · have hmk : m = k := by omega
        subst hmk
        rw [if_pos rfl, if_pos (by omega), if_pos (by omega)]
        rw [← countP_or_split stages
          (fun s => decide (s.pipelineId = pid' ∧ s.order = m + 1))
          (fun s => decide (s.pipelineId = pid' ∧ s.order = m))
          (by intro a; simp only [decide_eq_true_eq]; omega)]
        apply List.countP_congr
        intro s _
        simp only [Function.comp_apply, Bool.or_eq_true]
        by_cases hs : s.pipelineId = pid' ∧ m < s.order
        · rw [if_pos hs]
          dsimp only
          simp only [decide_eq_true_eq]
          omega
        · rw [if_neg hs]
          simp only [decide_eq_true_eq]
          omega
  · rw [if_neg hpp]
    apply List.countP_congr
    intro s _
    simp only [Function.comp_apply]
    by_cases hs : s.pipelineId = pid ∧ k < s.order
    · rw [if_pos hs]
      dsimp only
      simp only [decide_eq_true_eq]
      omega
    · rw [if_neg hs]
/-- Removing the first row matching q (as find? located it) lowers any
count by that row's contribution. -/
theorem countP_eraseP_of_find? (l : List PStage) (q r : PStage → Bool)
    (a : PStage) (h : l.find? q = some a) :
    l.countP r = (if r a then 1 else 0) + (l.eraseP q).countP r := by
  induction l with
  | nil => simp at h
  | cons x t ih =>
      by_cases hx : q x = true
      · rw [List.find?_cons_of_pos _ hx] at h
        have hax : a = x := (Option.some_inj.mp h).symm
        subst hax
        rw [List.eraseP_cons_of_pos hx, List.countP_cons]
        omega
      · rw [List.find?_cons_of_neg _ hx] at h
        rw [List.eraseP_cons_of_neg hx, List.countP_cons,
          List.countP_cons, ih h]
        omega
theorem occ_eraseP_of_find? (stages : List PStage) (q : PStage → Bool)
    (st : PStage) (h : stages.find? q = some st) (pid : ℕ) (m : ℤ) :
    occ stages pid m =
      (if st.pipelineId = pid ∧ st.order = m then 1 else 0) +
        occ (stages.eraseP q) pid m := by
  have hc := countP_eraseP_of_find? stages q
    (fun s => decide (s.pipelineId = pid ∧ s.order = m)) st h
  unfold occ
  rw [hc]
  by_cases hst : st.pipelineId = pid ∧ st.order = m <;> simp [hst]
theorem stageCount_eraseP_of_find? (stages : List PStage)
    (q : PStage → Bool) (st : PStage) (h : stages.find? q = some st)
    (pid : ℕ) :
    stageCount stages pid =
      (if st.pipelineId = pid then 1 else 0) +
        stageCount (stages.eraseP q) pid := by
  have hc := countP_eraseP_of_find? stages q
    (fun s => decide (s.pipelineId = pid)) st h
  unfold stageCount
  rw [hc]
  by_cases hst : st.pipelineId = pid <;> simp [hst]
/-- Creating a fresh pipeline preserves density of every pipeline. -/
theorem dense_pipelineCreate (stages : List PStage) (pid k f : ℕ)
    (hfresh : stageCount stages pid = 0)
    (hD : ∀ q, DensePipeline stages q) :
    ∀ q, DensePipeline (pipelineCreate stages pid k f) q := by
  intro q m
  unfold pipelineCreate
  rw [occ_append, occ_createPipelineStages, hD q m, stageCount_append,
    stageCount_createPipelineStages]
  by_cases hq : q = pid
  · subst hq
    split_ifs <;> omega
  · split_ifs <;> omega
/-- Inserting a stage at a position within 0 .. stage count preserves
density of every pipeline. -/
theorem dense_addStageAt (stages : List PStage) (pid i : ℕ) (ord : ℤ)
    (hD : ∀ q, DensePipeline stages q) (h0 : 0 ≤ ord)
    (h1 : ord ≤ (stageCount stages pid : ℤ)) :
    ∀ q, DensePipeline (addStageAt stages pid i ord) q := by
  intro q m
  unfold addStageAt
  by_cases hlt : ord < (stageCount stages pid : ℤ)
  · rw [if_pos hlt, occ_append, occ_shiftUp, occ_mk_singleton,
      stageCount_append,
      stageCount_map_preserve _ _ _ (by
        intro s
        by_cases hc : s.pipelineId = pid ∧ ord ≤ s.order
        · rw [if_pos hc]
        · rw [if_neg hc]),
      stageCount_mk_singleton]
    by_cases hq : q = pid
    · subst hq
      have hv1 := hD q (m - 1)
      have hv2 := hD q m
      split_ifs at hv1 hv2 ⊢ <;> omega
    · have hv3 := hD q m
      split_ifs at hv3 ⊢ <;> omega
  · rw [if_neg hlt, occ_append, occ_mk_singleton, stageCount_append,
      stageCount_mk_singleton]
    by_cases hq : q = pid
    · subst hq
      have hv2 := hD q m
      split_ifs at hv2 ⊢ <;> omega
    · have hv3 := hD q m
      split_ifs at hv3 ⊢ <;> omega
set_option maxHeartbeats 1600000 in
/-- A successful deleteStage preserves density of every pipeline. -/
theorem dense_deleteStage_ok (dc : ℕ → ℕ) (stages : List PStage)
    (sid : ℕ) (l : List PStage) (hD : ∀ q, DensePipeline stages q)
    (hok : deleteStage dc stages sid = Except.ok l) :
    ∀ q, DensePipeline l q := by
  unfold deleteStage at hok
  cases hfind : stages.find? (fun s => s.id = sid) with
  | none =>
      rw [hfind] at hok
      exact absurd hok (by simp)
  | some st =>
      rw [hfind] at hok
      dsimp only at hok
      by_cases hdc : 0 < dc st.id
      · rw [if_pos hdc] at hok
        exact absurd hok (by simp)
      · rw [if_neg hdc] at hok
        have hl := Except.ok.inj hok
        subst hl
        intro q m
        rw [occ_shiftDown,
          stageCount_map_preserve _ _ _ (by
            intro s
            by_cases hc : s.pipelineId = st.pipelineId ∧ st.order < s.order
            · rw [if_pos hc]
            · rw [if_neg hc])]
        have hmem : st ∈ stages := List.mem_of_find?_eq_some hfind
        have hpos : 0 < occ stages st.pipelineId st.order := by
          rw [occ]
          rw [List.countP_pos_iff]
          exact ⟨st, hmem, by simp⟩
        by_cases hq : q = st.pipelineId
        · subst hq
          rw [if_pos rfl]
          have hE1 := occ_eraseP_of_find? stages _ st hfind
            st.pipelineId (m + 1)
          have hE2 := occ_eraseP_of_find? stages _ st hfind
            st.pipelineId m
          have hEk := occ_eraseP_of_find? stages _ st hfind
            st.pipelineId st.order
          have hEck := stageCount_eraseP_of_find? stages _ st hfind
            st.pipelineId
          simp only [eq_self_iff_true, true_and, if_true, and_true]
            at hE1 hE2 hEk hEck
          have hv1 := hD st.pipelineId (m + 1)
          have hv2 := hD st.pipelineId m
          have hvk := hD st.pipelineId st.order
          have hkb : 0 ≤ st.order ∧
              st.order < (stageCount stages st.pipelineId : ℤ) := by
            by_cases hc : 0 ≤ st.order ∧
                st.order < (stageCount stages st.pipelineId : ℤ)
            · exact hc
            · rw [if_neg hc] at hvk
              omega
          rw [if_pos hkb] at hvk
          split_ifs at hE1 hE2 hv1 hv2 ⊢ <;> omega
        · rw [if_neg (fun hc => hq hc)]
          have hE3 := occ_eraseP_of_find? stages _ st hfind q m
          rw [if_neg (fun hc => hq hc.1.symm)] at hE3
          have hEc := stageCount_eraseP_of_find? stages _ st hfind q
          rw [if_neg (fun hc => hq hc.symm)] at hEc
          have hv3 := hD q m
          split_ifs at hv3 ⊢ <;> omega
/-- Every engine operation, run in a state where it is valid, preserves
density of every pipeline. -/
theorem dense_applyOp (dc : ℕ → ℕ) (stages : List PStage) (op : PipeOp)
    (hD : ∀ q, DensePipeline stages q) (hop : opOk stages op) :
    ∀ q, DensePipeline (applyOp dc stages op) q := by
  cases op with
  | createP pid k f => exact dense_pipelineCreate stages pid k f hop hD
  | addS pid i p =>
      cases p with
      | none =>
          simp only [applyOp, addStage]
          exact dense_addStageAt stages pid i _ hD (by simp)
            (by simp)
      | some pos =>
          simp only [applyOp, addStage]
          exact dense_addStageAt stages pid i _ hD (by exact hop.1)
            (by exact hop.2)
  | delS sid =>
      simp only [applyOp]
      cases hdel : deleteStage dc stages sid with
      | ok l => exact dense_deleteStage_ok dc stages sid l hD hdel
      | error e => exact hD
/-- C2 counterexample.  The source does not range-check an explicit
addStage position: on a one-stage pipeline (order 0), addStage at
position 3 compares 3 < 1, skips the shift, and inserts a stage with
order 3, so the orders are 0 and 3, not the dense 0..1. -/
theorem addStage_position_gap :
    ¬ DensePipeline (runOps (fun _ => 0) []
        [PipeOp.createP 1 1 0, PipeOp.addS 1 7 (some 3)]) 1 := by
  intro h
  exact absurd (h 1) (by decide)
/-- C2 amended.  Starting from any store whose pipelines are all dense
(in particular the empty store), any sequence of
createPipeline / addStage / deleteStage operations keeps every
pipeline's stage orders exactly the dense sequence 0..N-1 — provided
each createPipeline targets a fresh pipeline id and each explicit
addStage position p satisfies 0 ≤ p ≤ current stage count at the moment
it runs (the source checks neither bound; without it the invariant
fails, see the counterexample). -/
theorem stage_orders_dense (dc : ℕ → ℕ) (stages : List PStage)
    (ops : List PipeOp) (hD : ∀ q, DensePipeline stages q)
    (hval : ValidOps dc stages ops) :
    ∀ q, DensePipeline (runOps dc stages ops) q := by
  induction ops generalizing stages with
  | nil => exact hD
  | cons op rest ih =>
      simp only [runOps, List.foldl_cons]
      exact ih (applyOp dc stages op)
        (dense_applyOp dc stages op hD hval.1) hval.2
/-- Witness for stage_orders_dense: create a 3-stage pipeline, insert at
position 1, delete stage id 2; the resulting pipeline is dense. -/
theorem stage_orders_dense_witness :
    DensePipeline (runOps (fun _ => 0) []
      [PipeOp.createP 1 3 0, PipeOp.addS 1 10 (some 1), PipeOp.delS 2])
      1 := by
  have h := stage_orders_dense (fun _ => 0) []
    [PipeOp.createP 1 3 0, PipeOp.addS 1 10 (some 1), PipeOp.delS 2]
    (by
      intro q m
      rw [show occ [] q m = 0 from rfl]
      rw [show stageCount [] q = 0 from rfl]
      rw [if_neg (by omega)])
    (by decide)
  exact h 1
/-- C3 counterexample.  Deleting a stage referenced by a deal fails, but
the thrown TRPC code is BAD_REQUEST (message: Cannot delete stage with
active deals), not PRECONDITION_FAILED. -/
theorem deleteStage_error_is_bad_request :
    deleteStage (fun _ => 1) [PStage.mk 5 2 0] 5 =
        Except.error ErrCode.BAD_REQUEST ∧
      deleteStage (fun _ => 1) [PStage.mk 5 2 0] 5 ≠
        Except.error ErrCode.PRECONDITION_FAILED := by
  constructor
  · rfl
  · intro hcon
    rw [show deleteStage (fun _ => 1) [PStage.mk 5 2 0] 5 =
        Except.error ErrCode.BAD_REQUEST from rfl] at hcon
    exact ErrCode.noConfusion (Except.error.inj hcon)
/-- C3 amended.  When at least one deal references the stage,
deleteStage fails with BAD_REQUEST (the stage row is untouched: the
error is thrown before any write).  When no deal references it, the
stage is deleted and, within its pipeline, every order above the
deleted one is shifted down by one: counts at slots below the deleted
order are unchanged, the count at slot m above it becomes the old count
at m + 1, the deleted slot picks up the old count above it, and other
pipelines are untouched. -/
theorem deleteStage_guard_and_shift (dc : ℕ → ℕ)
    (stages : List PStage) (sid : ℕ) (st : PStage)
    (hfind : stages.find? (fun s => s.id = sid) = some st) :
    (0 < dc st.id →
      deleteStage dc stages sid = Except.error ErrCode.BAD_REQUEST) ∧
    (dc st.id = 0 → ∃ l, deleteStage dc stages sid = Except.ok l ∧
      (∀ q, q ≠ st.pipelineId → ∀ m, occ l q m = occ stages q m) ∧
      (∀ m, m < st.order →
        occ l st.pipelineId m = occ stages st.pipelineId m) ∧
      (∀ m, st.order < m →
        occ l st.pipelineId m = occ stages st.pipelineId (m + 1)) ∧
      occ l st.pipelineId st.order =
        occ stages st.pipelineId (st.order + 1) +
          (occ stages st.pipelineId st.order - 1)) := by
  constructor
  · intro hdc
    unfold deleteStage
    rw [hfind]
    dsimp only
    rw [if_pos hdc]
  · intro hdc
    have hok : deleteStage dc stages sid = Except.ok
        ((stages.eraseP (fun s => s.id = sid)).map (fun s =>
          if s.pipelineId = st.pipelineId ∧ st.order < s.order then
            { s with order := s.order - 1 }
          else s)) := by
      unfold deleteStage
      rw [hfind]
      dsimp only
      rw [if_neg (by omega)]
    refine ⟨_, hok, ?_, ?_, ?_, ?_⟩
    · intro q hq m
      rw [occ_shiftDown, if_neg (fun hc => hq hc)]
      have hE := occ_eraseP_of_find? stages _ st hfind q m
      rw [if_neg (by
        intro hc
        exact hq hc.1.symm)] at hE
      omega
    · intro m hm
      rw [occ_shiftDown, if_pos rfl, if_neg (by omega), if_pos (by omega)]
      have hE := occ_eraseP_of_find? stages _ st hfind st.pipelineId m
      rw [if_neg (by
        intro hc
        omega)] at hE
      omega
    · intro m hm
      rw [occ_shiftDown, if_pos rfl, if_pos (by omega), if_neg (by omega)]
      have hE := occ_eraseP_of_find? stages _ st hfind st.pipelineId
        (m + 1)
      rw [if_neg (by
        intro hc
        omega)] at hE
      omega
    · rw [occ_shiftDown, if_pos rfl, if_pos (by omega), if_pos (by omega)]
      have hE1 := occ_eraseP_of_find? stages _ st hfind st.pipelineId
        (st.order + 1)
      rw [if_neg (by
        intro hc
        omega)] at hE1
      have hE2 := occ_eraseP_of_find? stages _ st hfind st.pipelineId
        st.order
      rw [if_pos (by exact ⟨rfl, rfl⟩)] at hE2
      omega
/-- Witness for deleteStage_guard_and_shift: a three-stage pipeline
(orders 0, 1, 2); deleting the middle stage with no deals yields counts
where slot 1 holds what slot 2 held; with a deal present the call fails
with BAD_REQUEST. -/
theorem deleteStage_guard_and_shift_witness :
    deleteStage (fun _ => 1) [PStage.mk 6 2 1] 6 =
        Except.error ErrCode.BAD_REQUEST ∧
      ∃ l, deleteStage (fun _ => 0)
          [PStage.mk 5 2 0, PStage.mk 6 2 1, PStage.mk 7 2 2] 6 =
            Except.ok l ∧
        occ l 2 1 =
          occ [PStage.mk 5 2 0, PStage.mk 6 2 1, PStage.mk 7 2 2] 2 2 +
            (occ [PStage.mk 5 2 0, PStage.mk 6 2 1, PStage.mk 7 2 2] 2 1
              - 1) := by
  constructor
  · exact (deleteStage_guard_and_shift (fun _ => 1) [PStage.mk 6 2 1] 6
      (PStage.mk 6 2 1) (by rfl)).1 (by decide)
  · obtain ⟨l, hokl, _, _, _, hk⟩ :=
      (deleteStage_guard_and_shift (fun _ => 0)
        [PStage.mk 5 2 0, PStage.mk 6 2 1, PStage.mk 7 2 2] 6
        (PStage.mk 6 2 1) (by rfl)).2 rfl
    exact ⟨l, hokl, hk⟩
end HoustonCRM
